import Mathlib

/-!
Shallow embedding of the attribute-construction/commitment engine of
`src/uca/UserCollectableAttribute.js` (credential-commons).

JS values are modelled explicitly: primitive values as `PrimVal`, construction
inputs as a tagged union `UCAInput` (an object `{attestableValue: s}` is
`UCAInput.attestable s`), JS `undefined`/absent fields as `Option`, JS number
constraints over `Int` (the registry constraints and tested values are
integers), and JS truthiness by dedicated helpers.  The module-level mutable
`definitions` array is threaded through `construct` as explicit state, since
line 121 of the source (`definition.type = resolveType(definition)`) writes to
it.  The unguarded recursions of the source (`getTypeName`, `resolveType`,
`UCABaseConstructor`, `getAttestableValue`) are given explicit fuel; fuel
exhaustion models JS divergence / stack overflow and never fires on the
acyclic registries the claims quantify over.  The secure random source is
modelled as an oracle `saltFn` keyed by the path of property names from the
construction root, and sha256-hex as an abstract `hashFn`.
-/

namespace CredCommons

/-- JS primitive values that `isValueOfType` recognises. -/
inductive PrimVal where
  | str (s : String)
  | num (n : Int)
  | bool (b : Bool)
deriving DecidableEq, Repr

/-- One entry of an object schema's `properties` array. -/
structure ObjectProperty where
  name : String
  type : String
  version : Option String := none
deriving DecidableEq, Repr

/-- An inline object schema: `{ properties: [...], required: [...] }`. -/
structure ObjectSchema where
  properties : List ObjectProperty := []
  required : List String := []
deriving DecidableEq, Repr

/-- A definition's `type` field: either a string (primitive name or identifier
reference) or an inline object schema. -/
inductive DefType where
  | name (s : String)
  | object (o : ObjectSchema)
deriving DecidableEq, Repr

/-- A Definition Registry record.  `pattern` is modelled as an abstract
decidable predicate standing for `RegExp.test`. -/
structure Definition where
  identifier : String
  version : String
  type : DefType
  pattern : Option (String → Bool) := none
  minimumLength : Option Nat := none
  maximumLength : Option Nat := none
  minimum : Option Int := none
  maximum : Option Int := none
  exclusiveMinimum : Option Bool := none
  exclusiveMaximum : Option Bool := none
  credentialItem : Bool := false
  attestable : Bool := false

/-- JS truthiness of a possibly-absent number field (`0` is falsy). -/
def natTruthy : Option Nat → Bool
  | some n => n != 0
  | none => false

/-- JS truthiness of a possibly-absent boolean field. -/
def boolTruthy : Option Bool → Bool
  | some b => b
  | none => false

/-- JS truthiness of a possibly-absent string (empty string is falsy); used for
the `version` argument (`version ? ... : ...`, `version || definition.version`). -/
def strTruthy : Option String → Bool
  | some s => s != ""
  | none => false

/-- Construction inputs: a raw primitive, an object `{attestableValue: s}`, or
a nested-object mapping (JS objects; keys are unique). -/
inductive UCAInput where
  | prim (v : PrimVal)
  | attestable (s : String)
  | mapping (entries : List (String × UCAInput))

/-- `isValueOfType` (source lines 14-25): exact runtime-type check. -/
def isValueOfType (value : UCAInput) (ty : String) : Bool :=
  match ty with
  | "String" => match value with | .prim (.str _) => true | _ => false
  | "Number" => match value with | .prim (.num _) => true | _ => false
  | "Boolean" => match value with | .prim (.bool _) => true | _ => false
  | _ => false

/-- `isValid` (source lines 27-43).  Note the source's String maximum-length
branch compares `value.length <= definition.minimumLength` (line 32); when
`minimumLength` is absent the JS comparison with `undefined` is false.  The
Number branch is `((!isNil(min) && exclusiveMinimum ? v > min : v >= min) ||
isNil(min)) && (...)`; a comparison against an absent bound is false and is
then rescued by the `|| isNil` disjunct. -/
def isValid (value : PrimVal) (ty : String) (d : Definition) : Bool :=
  match ty with
  | "String" =>
    match value with
    | .str s =>
      (match d.pattern with
       | some p => p s
       | none => true) &&
      (if natTruthy d.minimumLength then decide (s.length ≥ d.minimumLength.getD 0) else true) &&
      (if natTruthy d.maximumLength then
         (match d.minimumLength with
          | some m => decide (s.length ≤ m)
          | none => false)
       else true)
    | _ => false
  | "Number" =>
    match value with
    | .num n =>
      ((if d.minimum.isSome && boolTruthy d.exclusiveMinimum then
          (match d.minimum with | some m => decide (n > m) | none => false)
        else
          (match d.minimum with | some m => decide (n ≥ m) | none => false)) || d.minimum.isNone) &&
      ((if d.maximum.isSome && boolTruthy d.exclusiveMaximum then
          (match d.maximum with | some m => decide (n < m) | none => false)
        else
          (match d.maximum with | some m => decide (n ≤ m) | none => false)) || d.maximum.isNone)
    | _ => false
  | "Boolean" =>
    match value with
    | .bool _ => true
    | _ => false
  | _ => false

/-- `getTypeName` (source lines 49-59), with fuel for the unbounded reference
chase; `validIdentifiers` is `definitions.map identifier`. -/
def getTypeName : Nat → List Definition → Definition → Option String
  | 0, _, _ => none
  | Nat.succ f, defs, d =>
    match d.type with
    | .name s =>
      if (defs.map (fun dd => dd.identifier)).contains s then
        match defs.find? (fun dd => dd.identifier == s) with
        | some inner => getTypeName f defs inner
        | none => none
      else some s
    | .object _ => some "Object"

/-- `resolveType` (source lines 61-73). -/
def resolveType : Nat → List Definition → Definition → Option DefType
  | 0, _, _ => none
  | Nat.succ f, defs, d =>
    match getTypeName (Nat.succ f) defs d with
    | none => none
    | some tn =>
      if tn != "Object" then some (DefType.name tn)
      else
        match d.type with
        | .object o => some (DefType.object o)
        | .name s =>
          match defs.find? (fun dd => dd.identifier == s) with
          | some ref => resolveType f defs ref
          | none => none

/-- Construction-time failures (source `throw new Error(...)` plus the
TypeErrors raised by dereferencing `undefined`). -/
inductive ConErr where
  | notDefined (identifier : String)
  | invalidAttestableValue
  | notValidValue (identifier : String)
  | missingRequired (identifier : String)
  | jsTypeError (msg : String)
deriving DecidableEq, Repr

/-- One parsed URN segment of an attestable value (source lines 86-91). -/
structure Component where
  propertyName : String
  salt : String
  value : String
  stringValue : String
deriving DecidableEq, Repr

/-- JS regex `\w` with default flags: ASCII letters, digits, underscore. -/
def wordChar (c : Char) : Bool := c.isAlphanum || c == '_'

/-- `String.prototype.split(sep)` for a one-character separator, on the
character list. -/
def splitOnChar (sep : Char) : List Char → List (List Char)
  | [] => [[]]
  | c :: rest =>
    let r := splitOnChar sep rest
    if c == sep then [] :: r
    else
      match r with
      | [] => [[c]]
      | h :: t => (c :: h) :: t

/-- `String.prototype.split('|')` (source line 81). -/
def splitOnPipe (l : List Char) : List (List Char) := splitOnChar '|' l

/-- One segment matched against `/^urn:(\w*):(\w*):([\w|\W]*)/` (source line
82).  Greedy `\w*` before a literal `:` matches exactly the maximal word-char
run, which must then be followed by `:`; the third group takes the rest. -/
def parseSegment (seg : List Char) : Option Component :=
  match seg with
  | 'u' :: 'r' :: 'n' :: ':' :: rest =>
    let p := rest.takeWhile wordChar
    match rest.dropWhile wordChar with
    | ':' :: rest2 =>
      let sa := rest2.takeWhile wordChar
      match rest2.dropWhile wordChar with
      | ':' :: rest3 => some ⟨p.asString, sa.asString, rest3.asString, seg.asString⟩
      | _ => none
    | _ => none
  | _ => none

/-- `parseAttestableValue` (source lines 79-99): split on `|`, keep the
grammar-matching segments, and fail unless the match count equals the split
count or the split count minus one. -/
def parseAttestableValue (s : String) : Except ConErr (List Component) :=
  let splitPipes := splitOnPipe s.data
  let values := splitPipes.filterMap parseSegment
  if splitPipes.length ≠ values.length ∧ splitPipes.length ≠ values.length + 1 then
    Except.error ConErr.invalidAttestableValue
  else
    Except.ok values

/-- A constructed Attribute Instance: identifier, version, resolved type name,
value (primitive, or the string payload of a reconstructed leaf, or property
map), salt, timestamp, derived id. -/
inductive UCA where
  | mk (identifier version ty : String) (value : PrimVal ⊕ List (String × UCA))
      (salt : Option String) (timestamp : Option Nat) (id : String)

def UCA.identifier : UCA → String
  | .mk i _ _ _ _ _ _ => i

def UCA.version : UCA → String
  | .mk _ v _ _ _ _ _ => v

def UCA.type : UCA → String
  | .mk _ _ t _ _ _ _ => t

def UCA.value : UCA → PrimVal ⊕ List (String × UCA)
  | .mk _ _ _ v _ _ _ => v

def UCA.salt : UCA → Option String
  | .mk _ _ _ _ s _ _ => s

def UCA.timestamp : UCA → Option Nat
  | .mk _ _ _ _ _ t _ => t

def UCA.id : UCA → String
  | .mk _ _ _ _ _ _ i => i

/-- Source lines 166-167: the substring of the identifier after the last `.`
if it contains one, else after the last `:` (the whole identifier when
neither occurs, matching `substring(lastIndexOf + 1)` with index `-1`). -/
def propertyNameOf (identifier : String) : String :=
  if identifier.data.contains '.' then
    ((splitOnChar '.' identifier.data).getLastD identifier.data).asString
  else ((splitOnChar ':' identifier.data).getLastD identifier.data).asString

/-- JS `<=` on strings (UTF-16 lexicographic; code points coincide for the
ASCII identifiers at hand), as the boolean comparator behind `_.sortBy`. -/
def charsLe : List Char → List Char → Bool
  | [], _ => true
  | _ :: _, [] => false
  | a :: as, b :: bs =>
    if a.toNat < b.toNat then true
    else if b.toNat < a.toNat then false
    else charsLe as bs

/-- Key order used to serialize a composite: ascending property name. -/
def keyLe (p q : String × String) : Prop := charsLe p.1.data q.1.data = true

instance : DecidableRel keyLe := fun p q =>
  inferInstanceAs (Decidable (charsLe p.1.data q.1.data = true))

/-- Template-literal rendering of `this.salt`; an unset salt renders as the
string `undefined` (it is never interpolated for real instances, because only
leaves, which always carry salts, interpolate it). -/
def saltDisplay : Option String → String
  | some s => s
  | none => "undefined"

/-- JS string conversion of `this.value` as used in the template literals and
`toString()` of `getAttestableValue`. -/
def jsDisplay : PrimVal ⊕ List (String × UCA) → String
  | .inl (.str s) => s
  | .inl (.num n) => toString n
  | .inl (.bool b) => if b then "true" else "false"
  | .inr _ => "[object Object]"

/-- `_.padStart(s, 8, '0')`. -/
def padStart8 (s : String) : String :=
  if s.length ≥ 8 then s else String.mk (List.replicate (8 - s.length) '0') ++ s

/-- `getAttestableValue` (source lines 164-179), with fuel for the recursion
through children.  The composite branch is
`_.reduce(_.sortBy(_.keys(this.value)), (s, k) => s + value[k].getAttestableValue() + '|', '')`;
since JS object keys are unique, sorting the keys and looking each one up is
the same as stably sorting the (key, rendered-child) pairs by key, which is
how it is written here.  A primitive value under the default branch would
throw in JS and is unreachable for constructed instances; it renders as "". -/
def attVal (hfuel : Nat) (u : UCA) : String :=
  match hfuel, u with
  | 0, _ => ""
  | Nat.succ f, .mk ident _ ty value salt _ _ =>
    let p := propertyNameOf ident
    let sd := saltDisplay salt
    match ty with
    | "String" => "urn:" ++ p ++ ":" ++ sd ++ ":" ++ jsDisplay value
    | "Number" => "urn:" ++ p ++ ":" ++ sd ++ ":" ++ padStart8 (jsDisplay value)
    | "Boolean" => "urn:" ++ p ++ ":" ++ sd ++ ":" ++ jsDisplay value
    | _ =>
      match value with
      | Sum.inl _ => ""
      | Sum.inr fields =>
        (List.insertionSort keyLe
          (fields.map (fun q => (q.1, attVal f q.2)))).foldl
          (fun acc q => acc ++ q.2 ++ "|") ""

/-- JS object insertion `obj[k] = v`: overwrite in place if the key exists,
else append (key order of a JS object is first-insertion order). -/
def upsert (fields : List (String × UCA)) (k : String) (v : UCA) : List (String × UCA) :=
  if fields.any (fun p => p.1 == k) then
    fields.map (fun p => if p.1 == k then (k, v) else p)
  else fields ++ [(k, v)]

/-- The key/value entries a lodash iteration (`_.map(value, (v, k) => ...)`,
`value[r]`) sees on a construction input. -/
def inputFields : UCAInput → List (String × UCAInput)
  | .prim _ => []
  | .attestable s => [("attestableValue", UCAInput.prim (PrimVal.str s))]
  | .mapping m => m

/-- JS truthiness of `value[required]` in the `hasRequireds` reduce. -/
def inputTruthy : UCAInput → Bool
  | .prim (.str s) => s != ""
  | .prim (.num n) => n != 0
  | .prim (.bool b) => b
  | .attestable _ => true
  | .mapping _ => true

/-- `isAttestableValue` (source lines 75-77): `value && value.attestableValue`
is truthy exactly for an object whose `attestableValue` is a non-empty
string. -/
def attestableValueOf : UCAInput → Option String
  | .attestable s => if s.data.isEmpty then none else some s
  | _ => none

/-- Source line 116: `version ? _.find(definitions, {identifier, version})
: _.find(definitions, {identifier})`, as the index of the first match. -/
def lookupDefIdx (defs : List Definition) (identifier : String) (version : Option String) :
    Option Nat :=
  match version with
  | some v =>
    if v == "" then defs.findIdx? (fun d => d.identifier == identifier)
    else defs.findIdx? (fun d => d.identifier == identifier && d.version == v)
  | none => defs.findIdx? (fun d => d.identifier == identifier)

/-- Source line 117: `this.version = version || definition.version`. -/
def thisVersionOf (version : Option String) (d : Definition) : String :=
  if strTruthy version then version.getD "" else d.version

/-- Source line 149: `_.isEmpty(definition.type.properties)` after the type
was resolved — `true` when the resolved type is a primitive name (whose
`properties` is `undefined`) or an object schema with no properties. -/
def propsEmptyOf (resolved : DefType) : Bool :=
  match resolved with
  | DefType.name _ => true
  | DefType.object o => o.properties.isEmpty

/-- Source line 121: `definition.type = resolveType(definition)`, the write
into the shared registry. -/
def mutateDef (defs : List Definition) (i : Nat) (d : Definition) (resolved : DefType) :
    List Definition :=
  defs.set i { d with type := resolved }

/-- Assemble the instance and derive its content id (source lines 245-246):
`id = version + ":" + identifier + ":" + hex(sha256(getAttestableValue()))`,
with sha256-hex abstracted as `hashFn`. -/
def mkUCA (hashFn : String → String) (hfuel : Nat) (identifier thisVersion ty : String)
    (value : PrimVal ⊕ List (String × UCA)) (salt : Option String) (ts : Option Nat) : UCA :=
  let base := UCA.mk identifier thisVersion ty value salt ts ""
  UCA.mk identifier thisVersion ty value salt ts
    (thisVersion ++ ":" ++ identifier ++ ":" ++ hashFn (attVal hfuel base))

/-- The reconstruction loop of Mode A (source lines 131-137): for each parsed
component, find the property whose `type` identifier ends with the component's
property name (`undefined` dereferences throw), reconstruct the child from the
component's raw segment, and insert it under the component's property name.
`recz` is the recursive constructor call with its fuel already decremented. -/
def constructA
    (recz : List Definition → List String → String → UCAInput → Option String →
      Except ConErr (UCA × List Definition))
    (resolved : DefType) (path : List String) :
    List Definition → List Component → List (String × UCA) →
    Except ConErr (List (String × UCA) × List Definition)
  | defs, [], acc => Except.ok (acc, defs)
  | defs, c :: rest, acc =>
    match resolved with
    | DefType.name _ => Except.error (ConErr.jsTypeError "reading properties of a primitive type")
    | DefType.object o =>
      match o.properties.find? (fun pr => c.propertyName.data.isSuffixOf pr.type.data) with
      | none => Except.error (ConErr.jsTypeError "reading type of undefined property")
      | some pr =>
        match recz defs (path ++ [c.propertyName]) pr.type
            (UCAInput.attestable c.stringValue) none with
        | Except.error e => Except.error e
        | Except.ok (child, defs2) =>
          constructA recz resolved path defs2 rest (upsert acc c.propertyName child)

/-- The nested-object loop of Mode C (source lines 156-160): for each supplied
key, find the property definition by name (`undefined` dereference throws) and
construct the child with the property's declared type and version. -/
def constructC
    (recz : List Definition → List String → String → UCAInput → Option String →
      Except ConErr (UCA × List Definition))
    (props : List ObjectProperty) (path : List String) :
    List Definition → List (String × UCAInput) → List (String × UCA) →
    Except ConErr (List (String × UCA) × List Definition)
  | defs, [], acc => Except.ok (acc, defs)
  | defs, (k, v) :: rest, acc =>
    match props.find? (fun pr => pr.name == k) with
    | none => Except.error (ConErr.jsTypeError "reading type of undefined propertyDef")
    | some pr =>
      match recz defs (path ++ [k]) pr.type v pr.version with
      | Except.error e => Except.error e
      | Except.ok (child, defs2) => constructC recz props path defs2 rest (upsert acc k child)

/-- `UCABaseConstructor` (source lines 106-249).  Returns the constructed
instance together with the post-call registry: line 121
(`definition.type = resolveType(definition)`) overwrites the looked-up
record's `type` field in the shared registry, so the registry is explicit
state.  `saltFn path` stands for the fresh sha256-hex of secure randomness
drawn at that construction site, and `now` for `timestamp.now()`. -/
def construct (hashFn : String → String) (saltFn : List String → String) (now : Nat) :
    Nat → List Definition → List String → String → UCAInput → Option String →
    Except ConErr (UCA × List Definition)
  | 0, _, _, _, _, _ => Except.error (ConErr.jsTypeError "recursion limit")
  | Nat.succ f, defs, path, identifier, value, version =>
    if !((defs.map (fun d => d.identifier)).contains identifier) then
      Except.error (ConErr.notDefined identifier)
    else
      match lookupDefIdx defs identifier version with
      | none => Except.error (ConErr.jsTypeError "reading type of undefined definition")
      | some i =>
        match defs[i]? with
        | none => Except.error (ConErr.jsTypeError "index out of range")
        | some d =>
          match getTypeName (Nat.succ f) defs d with
          | none => Except.error (ConErr.jsTypeError "type name resolution diverged")
          | some tyName =>
            match resolveType (Nat.succ f) defs d with
            | none => Except.error (ConErr.jsTypeError "type resolution diverged")
            | some resolved =>
              match attestableValueOf value with
              | some s =>
                match parseAttestableValue s with
                | Except.error e => Except.error e
                | Except.ok comps =>
                  match comps with
                  | [c] =>
                    Except.ok (mkUCA hashFn (Nat.succ f) identifier (thisVersionOf version d)
                      tyName (Sum.inl (PrimVal.str c.value)) (some c.salt) none,
                      mutateDef defs i d resolved)
                  | _ =>
                    match constructA
                        (fun ds pth idf vl vr => construct hashFn saltFn now f ds pth idf vl vr)
                        resolved path (mutateDef defs i d resolved) comps [] with
                    | Except.error e => Except.error e
                    | Except.ok (fields, defs2) =>
                      Except.ok (mkUCA hashFn (Nat.succ f) identifier (thisVersionOf version d)
                        tyName (Sum.inr fields) none none, defs2)
              | none =>
                if isValueOfType value tyName then
                  match value with
                  | UCAInput.prim v =>
                    if !(isValid v tyName d) then Except.error (ConErr.notValidValue identifier)
                    else
                      Except.ok (mkUCA hashFn (Nat.succ f) identifier (thisVersionOf version d)
                        tyName (Sum.inl v) (some (saltFn path)) (some now),
                        mutateDef defs i d resolved)
                  | _ => Except.error (ConErr.jsTypeError "unreachable value shape")
                else
                  if propsEmptyOf resolved then Except.error (ConErr.notValidValue identifier)
                  else
                    match resolved with
                    | DefType.name _ => Except.error (ConErr.jsTypeError "unreachable resolved type")
                    | DefType.object o =>
                      if !(o.required.all (fun r =>
                            match (inputFields value).find? (fun p => p.1 == r) with
                            | some p => inputTruthy p.2
                            | none => false)) then
                        Except.error (ConErr.missingRequired identifier)
                      else
                        match constructC
                            (fun ds pth idf vl vr => construct hashFn saltFn now f ds pth idf vl vr)
                            o.properties path (mutateDef defs i d resolved)
                            (inputFields value) [] with
                        | Except.error e => Except.error e
                        | Except.ok (fields, defs2) =>
                          Except.ok (mkUCA hashFn (Nat.succ f) identifier (thisVersionOf version d)
                            tyName (Sum.inr fields) none none, defs2)

/-!
## Spec-side reference predicates

These two predicates follow the wording of the specification (for claims that
compare the code against the spec's description of validation). -/

/-- Modelled from the spec: "String: pattern (if present) must match; length
must be ≥ `minimumLength` (if present) and ≤ `maximumLength` (if present)." -/
def stringValidPerSpec (s : String) (d : Definition) : Bool :=
  (match d.pattern with
   | some p => p s
   | none => true) &&
  (match d.minimumLength with
   | some m => decide (s.length ≥ m)
   | none => true) &&
  (match d.maximumLength with
   | some m => decide (s.length ≤ m)
   | none => true)

/-- Modelled from the spec: "Number: value must respect `minimum`/`maximum`,
using `>`/`<` when the corresponding exclusive flag is set, else `>=`/`<=`;
absent bounds impose no constraint." -/
def numberValidPerSpec (n : Int) (d : Definition) : Bool :=
  (match d.minimum with
   | some m => if boolTruthy d.exclusiveMinimum then decide (n > m) else decide (n ≥ m)
   | none => true) &&
  (match d.maximum with
   | some m => if boolTruthy d.exclusiveMaximum then decide (n < m) else decide (n ≤ m)
   | none => true)

/-!
## Claim C3 — string constraint validation (code bug)

The source's maximum-length branch (line 32) compares `value.length` against
`definition.minimumLength`, not `maximumLength`. -/

/-- The registry record exhibiting the bug: minimum length 2, maximum 10. -/
def c3Def : Definition :=
  { identifier := "c:Str:s", version := "1", type := DefType.name "String",
    minimumLength := some 2, maximumLength := some 10 }

/-- Claim C3: the validator is claimed to accept a string exactly when the
pattern (if present) matches and the length is between `minimumLength` and
`maximumLength`.  The code disagrees: `"hello"` (length 5, bounds [2,10], no
pattern) satisfies the claimed predicate, yet `isValid` rejects it because
line 32 compares the length against `minimumLength` (2) for the upper bound. -/
theorem c3_string_validation_code_bug :
    stringValidPerSpec "hello" c3Def = true ∧
    isValid (PrimVal.str "hello") "String" c3Def = false :=
  ⟨rfl, rfl⟩

/-!
## Claim C7 — numeric boundary behaviour (confirmed) -/

/-- Claim C7: for every numeric value and definition, `isValid` agrees with
the claimed bound semantics: a value equal to `minimum` is accepted iff
`exclusiveMinimum` is unset or false (symmetrically for `maximum`), and an
absent bound imposes no constraint.  Stated as equivalence of the code's
number branch with the spec-worded predicate, for all values and definitions. -/
theorem c7_numeric_bounds_match_spec (n : Int) (d : Definition) :
    isValid (PrimVal.num n) "Number" d = numberValidPerSpec n d := by
  unfold isValid numberValidPerSpec
  cases hmin : d.minimum <;> cases hmax : d.maximum <;>
    cases hem : d.exclusiveMinimum <;> cases heM : d.exclusiveMaximum <;>
      simp [boolTruthy]

/-!
## Claim C6 — commitment parsing tolerance (confirmed) -/

/-- Claim C6: parsing splits the commitment on `|` and matches each segment
against the urn grammar; it succeeds (returning exactly the grammar-matching
segments) iff the number of matching segments equals the split count or the
split count minus one, and any other mismatch fails with the
malformed-commitment error. -/
theorem c6_parse_tolerance (s : String) :
    parseAttestableValue s =
      (if (splitOnPipe s.data).length = ((splitOnPipe s.data).filterMap parseSegment).length ∨
          (splitOnPipe s.data).length = ((splitOnPipe s.data).filterMap parseSegment).length + 1
       then Except.ok ((splitOnPipe s.data).filterMap parseSegment)
       else Except.error ConErr.invalidAttestableValue) := by
  unfold parseAttestableValue
  by_cases h1 : (splitOnPipe s.data).length = ((splitOnPipe s.data).filterMap parseSegment).length
  · simp [h1]
  · by_cases h2 :
      (splitOnPipe s.data).length = ((splitOnPipe s.data).filterMap parseSegment).length + 1
    · simp [h1, h2]
    · simp [h1, h2]

/-!
## Claim C8 — unknown-identifier rejection (confirmed) -/

/-- Claim C8: for every identifier not present in the registry and every
value, construction fails with the not-defined error and produces no
instance. -/
theorem c8_unknown_identifier
    (hashFn : String → String) (saltFn : List String → String) (now f : Nat)
    (defs : List Definition) (path : List String) (identifier : String)
    (value : UCAInput) (version : Option String)
    (h : ((defs.map (fun d => d.identifier)).contains identifier) = false) :
    construct hashFn saltFn now (Nat.succ f) defs path identifier value version =
      Except.error (ConErr.notDefined identifier) := by
  unfold construct
  rw [h]
  rfl

/-- Witness for C8 at a concrete input: the empty registry does not contain
`"nonexistent:id"`, and construction fails with the not-defined error. -/
theorem c8_unknown_identifier_witness :
    ((([] : List Definition).map (fun d => d.identifier)).contains "nonexistent:id") = false ∧
    construct (fun s => s) (fun _ => "r") 0 1 [] [] "nonexistent:id"
        (UCAInput.prim (PrimVal.num 1)) none =
      Except.error (ConErr.notDefined "nonexistent:id") :=
  ⟨rfl, c8_unknown_identifier (fun s => s) (fun _ => "r") 0 0 [] [] "nonexistent:id"
    (UCAInput.prim (PrimVal.num 1)) none rfl⟩

/-!
## Claim C10 — registered identifier, unmatched version (confirmed) -/

/-- Claim C10: when the identifier is registered but an explicit (non-empty)
version matches no `(identifier, version)` pair, construction throws —
in the source the failed lookup leaves `definition` undefined and
`getTypeName(definition)` dereferences it — and returns no instance. -/
theorem c10_unmatched_version
    (hashFn : String → String) (saltFn : List String → String) (now f : Nat)
    (defs : List Definition) (path : List String) (identifier : String)
    (value : UCAInput) (v : String)
    (hmem : ((defs.map (fun d => d.identifier)).contains identifier) = true)
    (hv : (v == "") = false)
    (hfind : defs.findIdx? (fun d => d.identifier == identifier && d.version == v) = none) :
    construct hashFn saltFn now (Nat.succ f) defs path identifier value (some v) =
      Except.error (ConErr.jsTypeError "reading type of undefined definition") := by
  have hlook : lookupDefIdx defs identifier (some v) = none := by
    simp only [lookupDefIdx]
    rw [hv]
    simpa using hfind
  unfold construct
  rw [hmem, hlook]
  rfl

/-- Registry for the C10 witness: one record with version `"1"`. -/
def c10Def : Definition :=
  { identifier := "civ:Person:age", version := "1", type := DefType.name "Number" }

/-- Witness for C10 at a concrete input: `"civ:Person:age"` is registered
with version `"1"` only, and requesting version `"9"` fails. -/
theorem c10_unmatched_version_witness :
    (([c10Def].map (fun d => d.identifier)).contains "civ:Person:age") = true ∧
    construct (fun s => s) (fun _ => "r") 0 3 [c10Def] [] "civ:Person:age"
        (UCAInput.prim (PrimVal.num 1)) (some "9") =
      Except.error (ConErr.jsTypeError "reading type of undefined definition") :=
  ⟨rfl, c10_unmatched_version (fun s => s) (fun _ => "r") 0 2 [c10Def] [] "civ:Person:age"
    (UCAInput.prim (PrimVal.num 1)) "9" rfl rfl rfl⟩

/-!
## Claim C2 — registry read-only after load (corrected)

Source line 121 (`definition.type = resolveType(definition)`) writes the
resolved type back into the shared registry record, so the registry is not
read-only.  The counterexample drives it on a record whose `type` is an
identifier reference, which the call overwrites with the resolved primitive
name.  The amended frame property: every field other than `type` of every
record is preserved by every successful call. -/

/-- A record whose `type` is a reference to another identifier. -/
def c2RefDef : Definition :=
  { identifier := "a:B:c", version := "1", type := DefType.name "x:Y:z" }

/-- The referenced record, of primitive type String. -/
def c2StrDef : Definition :=
  { identifier := "x:Y:z", version := "1", type := DefType.name "String" }

/-- Claim C2 counterexample: constructing `"a:B:c"` from the raw string
`"hi"` overwrites the first registry record's `type` field (an identifier
reference `"x:Y:z"`) with the resolved name `"String"`, so a definition
record is not the same before and after the call. -/
theorem c2_registry_mutation_counterexample :
    (construct (fun s => s) (fun _ => "r") 0 3 [c2RefDef, c2StrDef] [] "a:B:c"
        (UCAInput.prim (PrimVal.str "hi")) none).toOption.map
      (fun p => p.2.map (fun d => d.type)) =
      some [DefType.name "String", DefType.name "String"] ∧
    [c2RefDef, c2StrDef].map (fun d => d.type) =
      [DefType.name "x:Y:z", DefType.name "String"] :=
  ⟨rfl, rfl⟩

/-- Agreement of two registry records on every field except `type`. -/
def sameButType (d d' : Definition) : Prop :=
  d'.identifier = d.identifier ∧ d'.version = d.version ∧ d'.pattern = d.pattern ∧
  d'.minimumLength = d.minimumLength ∧ d'.maximumLength = d.maximumLength ∧
  d'.minimum = d.minimum ∧ d'.maximum = d.maximum ∧
  d'.exclusiveMinimum = d.exclusiveMinimum ∧ d'.exclusiveMaximum = d.exclusiveMaximum ∧
  d'.credentialItem = d.credentialItem ∧ d'.attestable = d.attestable

theorem sameButType_refl (d : Definition) : sameButType d d :=
  ⟨rfl, rfl, rfl, rfl, rfl, rfl, rfl, rfl, rfl, rfl, rfl⟩

theorem sameButType_trans {a b c : Definition} (h1 : sameButType a b) (h2 : sameButType b c) :
    sameButType a c := by
  obtain ⟨p1, p2, p3, p4, p5, p6, p7, p8, p9, p10, p11⟩ := h1
  obtain ⟨q1, q2, q3, q4, q5, q6, q7, q8, q9, q10, q11⟩ := h2
  exact ⟨q1.trans p1, q2.trans p2, q3.trans p3, q4.trans p4, q5.trans p5, q6.trans p6,
    q7.trans p7, q8.trans p8, q9.trans p9, q10.trans p10, q11.trans p11⟩

theorem sameButType_set_of_update {d : Definition} :
    ∀ (defs : List Definition) (i : Nat), defs[i]? = some d →
      ∀ d', sameButType d d' → List.Forall₂ sameButType defs (defs.set i d')
  | [], i, h => by simp at h
  | a :: l, 0, h => by
    intro d' hd
    simp only [List.getElem?_cons_zero, Option.some.injEq] at h
    subst h
    exact List.Forall₂.cons hd (List.forall₂_same.mpr (fun x _ => sameButType_refl x))
  | a :: l, Nat.succ i, h => by
    intro d' hd
    simp only [List.getElem?_cons_succ] at h
    exact List.Forall₂.cons (sameButType_refl a) (sameButType_set_of_update l i h d' hd)

theorem mutateDef_frame (defs : List Definition) (i : Nat) (d : Definition) (resolved : DefType)
    (hget : defs[i]? = some d) :
    List.Forall₂ sameButType defs (mutateDef defs i d resolved) :=
  sameButType_set_of_update defs i hget _
    ⟨rfl, rfl, rfl, rfl, rfl, rfl, rfl, rfl, rfl, rfl, rfl⟩

theorem forall₂_sameButType_trans {a b c : List Definition}
    (h1 : List.Forall₂ sameButType a b) (h2 : List.Forall₂ sameButType b c) :
    List.Forall₂ sameButType a c := by
  induction h1 generalizing c with
  | nil => cases h2; exact List.Forall₂.nil
  | cons hab tab ih =>
    cases h2 with
    | cons hbc tbc => exact List.Forall₂.cons (sameButType_trans hab hbc) (ih tbc)

theorem constructA_frame
    (recz : List Definition → List String → String → UCAInput → Option String →
      Except ConErr (UCA × List Definition))
    (hrec : ∀ ds pth idf vl vr c ds', recz ds pth idf vl vr = Except.ok (c, ds') →
      List.Forall₂ sameButType ds ds')
    (resolved : DefType) (path : List String) :
    ∀ (comps : List Component) (ds : List Definition) (acc fields : List (String × UCA))
      (ds' : List Definition),
      constructA recz resolved path ds comps acc = Except.ok (fields, ds') →
      List.Forall₂ sameButType ds ds' := by
  intro comps
  induction comps with
  | nil =>
    intro ds acc fields ds' h
    unfold constructA at h
    cases h
    exact List.forall₂_same.mpr (fun x _ => sameButType_refl x)
  | cons c rest ih =>
    intro ds acc fields ds' h
    unfold constructA at h
    split at h
    · cases h
    · split at h
      · cases h
      · split at h
        · cases h
        · rename_i child defs2 heq
          exact forall₂_sameButType_trans (hrec _ _ _ _ _ _ _ heq) (ih _ _ _ _ h)

theorem constructC_frame
    (recz : List Definition → List String → String → UCAInput → Option String →
      Except ConErr (UCA × List Definition))
    (hrec : ∀ ds pth idf vl vr c ds', recz ds pth idf vl vr = Except.ok (c, ds') →
      List.Forall₂ sameButType ds ds')
    (props : List ObjectProperty) (path : List String) :
    ∀ (entries : List (String × UCAInput)) (ds : List Definition)
      (acc fields : List (String × UCA)) (ds' : List Definition),
      constructC recz props path ds entries acc = Except.ok (fields, ds') →
      List.Forall₂ sameButType ds ds' := by
  intro entries
  induction entries with
  | nil =>
    intro ds acc fields ds' h
    unfold constructC at h
    cases h
    exact List.forall₂_same.mpr (fun x _ => sameButType_refl x)
  | cons e rest ih =>
    intro ds acc fields ds' h
    unfold constructC at h
    split at h
    · cases h
    · split at h
      · cases h
      · rename_i child defs2 heq
        exact forall₂_sameButType_trans (hrec _ _ _ _ _ _ _ heq) (ih _ _ _ _ h)

/-- Claim C2 (amended): construction is not registry-read-only — it may
overwrite the `type` field of the records it looks up with their resolved
types (see the counterexample) — but that is the only mutation: every
successful call, including its recursive child constructions, preserves every
other field of every registry record (identifier, version, constraints and
flags), in order and length. -/
theorem c2_registry_frame (hashFn : String → String) (saltFn : List String → String) (now : Nat) :
    ∀ (f : Nat) (defs : List Definition) (path : List String) (identifier : String)
      (value : UCAInput) (version : Option String) (u : UCA) (defs' : List Definition),
      construct hashFn saltFn now f defs path identifier value version = Except.ok (u, defs') →
      List.Forall₂ sameButType defs defs' := by
  intro f
  induction f with
  | zero => intro defs path identifier value version u defs' h; cases h
  | succ f ih =>
    intro defs path identifier value version u defs' h
    unfold construct at h
    repeat' split at h
    all_goals cases h
    all_goals
      first
        | exact mutateDef_frame _ _ _ _ ‹_›
        | exact forall₂_sameButType_trans (mutateDef_frame _ _ _ _ ‹_›)
            (constructA_frame _ (fun ds pth idf vl vr c ds' hre =>
              ih ds pth idf vl vr c ds' hre) _ _ _ _ _ _ _ ‹_›)
        | exact forall₂_sameButType_trans (mutateDef_frame _ _ _ _ ‹_›)
            (constructC_frame _ (fun ds pth idf vl vr c ds' hre =>
              ih ds pth idf vl vr c ds' hre) _ _ _ _ _ _ _ ‹_›)

/-- Witness for the amended C2 frame property at a concrete input: the
mutating call of the counterexample still preserves every non-`type` field of
both records. -/
theorem c2_registry_frame_witness :
    ∃ u defs', construct (fun s => s) (fun _ => "r") 0 3 [c2RefDef, c2StrDef] [] "a:B:c"
        (UCAInput.prim (PrimVal.str "hi")) none = Except.ok (u, defs') ∧
      List.Forall₂ sameButType [c2RefDef, c2StrDef] defs' := by
  refine ⟨_, _, rfl, ?_⟩
  exact c2_registry_frame (fun s => s) (fun _ => "r") 0 3 [c2RefDef, c2StrDef] [] "a:B:c"
    (UCAInput.prim (PrimVal.str "hi")) none _ _ rfl

/-!
## Shared concrete registry for witnesses -/

/-- String-typed leaf record. -/
def firstDef : Definition :=
  { identifier := "civ:Name:first", version := "1", type := DefType.name "String" }

/-- String-typed leaf record. -/
def lastDef : Definition :=
  { identifier := "civ:Name:last", version := "1", type := DefType.name "String" }

/-- Composite record with properties `first` (required) and `last`. -/
def nameDef : Definition :=
  { identifier := "civ:Identity:name", version := "1",
    type := DefType.object
      { properties := [⟨"first", "civ:Name:first", none⟩, ⟨"last", "civ:Name:last", none⟩],
        required := ["first"] },
    credentialItem := true }

/-- Registry with the two leaves and the composite. -/
def regName : List Definition := [firstDef, lastDef, nameDef]

/-- Number-typed leaf with no constraints. -/
def numFieldDef : Definition :=
  { identifier := "c:Val:n", version := "1", type := DefType.name "Number" }

/-- Composite requiring the numeric property `n`. -/
def objDef : Definition :=
  { identifier := "c:Obj:x", version := "1",
    type := DefType.object { properties := [⟨"n", "c:Val:n", none⟩], required := ["n"] } }

/-!
## Claim C9 — salt presence invariant (corrected)

Composite instances never receive a salt: the source assigns `this.salt` only
in the reconstructed-leaf branch (line 128) and the raw-primitive branch
(line 148); the nested-object and multi-segment branches leave it undefined. -/

/-- Claim C9 counterexample: a successfully constructed composite instance
(built from a nested-object mapping with all required fields supplied) has no
salt, contradicting the claim that every instance carries a salt string. -/
theorem c9_composite_salt_counterexample :
    (construct (fun s => s) (fun _ => "r") 0 5 regName []
        "civ:Identity:name"
        (UCAInput.mapping [("first", UCAInput.prim (PrimVal.str "Ann")),
          ("last", UCAInput.prim (PrimVal.str "Lee"))]) none).toOption.map
      (fun p => p.1.salt) = some none :=
  rfl

/-- Claim C9 (amended): a successfully constructed instance carries a salt
exactly when it is a leaf — its value slot holds a primitive (a raw value, or
the verbatim payload of a single-segment commitment, whose salt is the parsed
one) — while composite instances (nested-object or multi-segment
reconstruction) carry no salt of their own. -/
theorem c9_salt_iff_leaf (hashFn : String → String) (saltFn : List String → String)
    (now fuel : Nat) (defs : List Definition) (path : List String) (identifier : String)
    (value : UCAInput) (version : Option String) (u : UCA) (defs' : List Definition)
    (h : construct hashFn saltFn now fuel defs path identifier value version =
      Except.ok (u, defs')) :
    u.salt.isSome = true ↔ ∃ pv, u.value = Sum.inl pv := by
  cases fuel with
  | zero => cases h
  | succ f =>
    unfold construct at h
    repeat' split at h
    all_goals cases h
    all_goals simp [mkUCA, UCA.salt, UCA.value]

/-- Witness for the amended C9 at a concrete input: the composite
construction above satisfies the iff (no salt, and the value is a property
map, not a primitive). -/
theorem c9_salt_iff_leaf_witness :
    ∃ u defs', construct (fun s => s) (fun _ => "r") 0 5 regName []
        "civ:Identity:name"
        (UCAInput.mapping [("first", UCAInput.prim (PrimVal.str "Ann")),
          ("last", UCAInput.prim (PrimVal.str "Lee"))]) none = Except.ok (u, defs') ∧
      (u.salt.isSome = true ↔ ∃ pv, u.value = Sum.inl pv) := by
  refine ⟨_, _, rfl, ?_⟩
  exact c9_salt_iff_leaf (fun s => s) (fun _ => "r") 0 5 regName [] "civ:Identity:name"
    (UCAInput.mapping [("first", UCAInput.prim (PrimVal.str "Ann")),
      ("last", UCAInput.prim (PrimVal.str "Lee"))]) none _ _ rfl

/-!
## Claim C4 — required-field enforcement (corrected)

The source's check (line 152) is `value[required] && has`: it tests JS
truthiness of the supplied value, so a required field bound to `0`, `""` or
`false` — a perfectly valid value of its declared type — is treated as
missing.  Omission does fail with the missing-required error; supplying all
required names with truthy values succeeds when each child constructs. -/

theorem isValueOfType_mapping (m : List (String × UCAInput)) (ty : String) :
    isValueOfType (UCAInput.mapping m) ty = false := by
  unfold isValueOfType
  split <;> rfl

theorem c4_missing_part
    (hashFn : String → String) (saltFn : List String → String) (now f : Nat)
    (defs : List Definition) (path : List String) (identifier : String)
    (version : Option String) (m : List (String × UCAInput))
    (i : Nat) (d : Definition) (tyName : String) (o : ObjectSchema) (r : String)
    (hmem : ((defs.map (fun dd => dd.identifier)).contains identifier) = true)
    (hidx : lookupDefIdx defs identifier version = some i)
    (hget : defs[i]? = some d)
    (hty : getTypeName (Nat.succ f) defs d = some tyName)
    (hres : resolveType (Nat.succ f) defs d = some (DefType.object o))
    (hne : o.properties.isEmpty = false)
    (hr : r ∈ o.required)
    (hmiss : m.find? (fun p => p.1 == r) = none) :
    construct hashFn saltFn now (Nat.succ f) defs path identifier (UCAInput.mapping m) version =
      Except.error (ConErr.missingRequired identifier) := by
  have hall : (o.required.all (fun r2 =>
      match (inputFields (UCAInput.mapping m)).find? (fun p => p.1 == r2) with
      | some p => inputTruthy p.2
      | none => false)) = false := by
    apply List.all_eq_false.mpr
    exact ⟨r, hr, by simp [inputFields, hmiss]⟩
  unfold construct
  rw [hmem]
  simp only [hidx, hget, hty, hres, attestableValueOf, isValueOfType_mapping, propsEmptyOf,
    hne, hall]
  rfl

theorem c4_success_part
    (hashFn : String → String) (saltFn : List String → String) (now f : Nat)
    (defs : List Definition) (path : List String) (identifier : String)
    (version : Option String) (m : List (String × UCAInput))
    (i : Nat) (d : Definition) (tyName : String) (o : ObjectSchema)
    (fields : List (String × UCA)) (defs2 : List Definition)
    (hmem : ((defs.map (fun dd => dd.identifier)).contains identifier) = true)
    (hidx : lookupDefIdx defs identifier version = some i)
    (hget : defs[i]? = some d)
    (hty : getTypeName (Nat.succ f) defs d = some tyName)
    (hres : resolveType (Nat.succ f) defs d = some (DefType.object o))
    (hne : o.properties.isEmpty = false)
    (hall : (o.required.all (fun r2 =>
      match m.find? (fun p => p.1 == r2) with
      | some p => inputTruthy p.2
      | none => false)) = true)
    (hC : constructC (fun ds pth idf vl vr => construct hashFn saltFn now f ds pth idf vl vr)
        o.properties path (mutateDef defs i d (DefType.object o)) m [] =
      Except.ok (fields, defs2)) :
    construct hashFn saltFn now (Nat.succ f) defs path identifier (UCAInput.mapping m) version =
      Except.ok (mkUCA hashFn (Nat.succ f) identifier (thisVersionOf version d) tyName
        (Sum.inr fields) none none, defs2) := by
  unfold construct
  rw [hmem]
  simp only [hidx, hget, hty, hres, attestableValueOf, isValueOfType_mapping, propsEmptyOf,
    hne, inputFields, hall, hC]
  rfl

/-- Claim C4 (amended): in composite construction, (1) omitting a required
name fails with the missing-required error, and (2) supplying every required
name with a JS-truthy value succeeds, provided each supplied key names a
declared property and each child construction succeeds (the original claim's
"values of the declared types" is falsified by the counterexample: a falsy
value such as `0` of the declared type is treated as missing by the
truthiness-based check of line 152). -/
theorem c4_required_enforcement :
    (∀ (hashFn : String → String) (saltFn : List String → String) (now f : Nat)
      (defs : List Definition) (path : List String) (identifier : String)
      (version : Option String) (m : List (String × UCAInput))
      (i : Nat) (d : Definition) (tyName : String) (o : ObjectSchema) (r : String),
      ((defs.map (fun dd => dd.identifier)).contains identifier) = true →
      lookupDefIdx defs identifier version = some i →
      defs[i]? = some d →
      getTypeName (Nat.succ f) defs d = some tyName →
      resolveType (Nat.succ f) defs d = some (DefType.object o) →
      o.properties.isEmpty = false →
      r ∈ o.required →
      m.find? (fun p => p.1 == r) = none →
      construct hashFn saltFn now (Nat.succ f) defs path identifier (UCAInput.mapping m)
        version = Except.error (ConErr.missingRequired identifier)) ∧
    (∀ (hashFn : String → String) (saltFn : List String → String) (now f : Nat)
      (defs : List Definition) (path : List String) (identifier : String)
      (version : Option String) (m : List (String × UCAInput))
      (i : Nat) (d : Definition) (tyName : String) (o : ObjectSchema)
      (fields : List (String × UCA)) (defs2 : List Definition),
      ((defs.map (fun dd => dd.identifier)).contains identifier) = true →
      lookupDefIdx defs identifier version = some i →
      defs[i]? = some d →
      getTypeName (Nat.succ f) defs d = some tyName →
      resolveType (Nat.succ f) defs d = some (DefType.object o) →
      o.properties.isEmpty = false →
      (o.required.all (fun r2 =>
        match m.find? (fun p => p.1 == r2) with
        | some p => inputTruthy p.2
        | none => false)) = true →
      constructC (fun ds pth idf vl vr => construct hashFn saltFn now f ds pth idf vl vr)
          o.properties path (mutateDef defs i d (DefType.object o)) m [] =
        Except.ok (fields, defs2) →
      construct hashFn saltFn now (Nat.succ f) defs path identifier (UCAInput.mapping m)
        version = Except.ok (mkUCA hashFn (Nat.succ f) identifier (thisVersionOf version d)
          tyName (Sum.inr fields) none none, defs2)) :=
  ⟨fun hashFn saltFn now f defs path identifier version m i d tyName o r h1 h2 h3 h4 h5 h6 h7
      h8 =>
    c4_missing_part hashFn saltFn now f defs path identifier version m i d tyName o r h1 h2 h3
      h4 h5 h6 h7 h8,
   fun hashFn saltFn now f defs path identifier version m i d tyName o fields defs2 h1 h2 h3
      h4 h5 h6 h7 h8 =>
    c4_success_part hashFn saltFn now f defs path identifier version m i d tyName o fields
      defs2 h1 h2 h3 h4 h5 h6 h7 h8⟩

/-- Claim C4 counterexample: required property `n` supplied with `0` — a
value of the declared type Number, accepted by the validator — still fails
with the missing-required error, because JS `0` is falsy. -/
theorem c4_falsy_required_counterexample :
    isValueOfType (UCAInput.prim (PrimVal.num 0)) "Number" = true ∧
    isValid (PrimVal.num 0) "Number" numFieldDef = true ∧
    construct (fun s => s) (fun _ => "r") 0 5 [numFieldDef, objDef] [] "c:Obj:x"
        (UCAInput.mapping [("n", UCAInput.prim (PrimVal.num 0))]) none =
      Except.error (ConErr.missingRequired "c:Obj:x") :=
  ⟨rfl, rfl, rfl⟩

/-- Witness for the amended C4 at concrete inputs: omitting required `first`
fails with the missing-required error; supplying truthy `first` and `last`
succeeds. -/
theorem c4_required_enforcement_witness :
    construct (fun s => s) (fun _ => "r") 0 3 regName [] "civ:Identity:name"
        (UCAInput.mapping [("last", UCAInput.prim (PrimVal.str "Lee"))]) none =
      Except.error (ConErr.missingRequired "civ:Identity:name") ∧
    (∃ fields defs2, construct (fun s => s) (fun _ => "r") 0 3 regName [] "civ:Identity:name"
        (UCAInput.mapping [("first", UCAInput.prim (PrimVal.str "Ann")),
          ("last", UCAInput.prim (PrimVal.str "Lee"))]) none =
      Except.ok (mkUCA (fun s => s) 3 "civ:Identity:name" "1" "Object"
        (Sum.inr fields) none none, defs2)) := by
  constructor
  · exact c4_required_enforcement.1 (fun s => s) (fun _ => "r") 0 2 regName []
      "civ:Identity:name" none [("last", UCAInput.prim (PrimVal.str "Lee"))] 2 nameDef
      "Object"
      { properties := [⟨"first", "civ:Name:first", none⟩, ⟨"last", "civ:Name:last", none⟩],
        required := ["first"] }
      "first" rfl rfl rfl rfl rfl rfl (by simp) rfl
  · exact ⟨_, _, c4_required_enforcement.2 (fun s => s) (fun _ => "r") 0 2 regName []
      "civ:Identity:name" none
      [("first", UCAInput.prim (PrimVal.str "Ann")), ("last", UCAInput.prim (PrimVal.str "Lee"))]
      2 nameDef "Object"
      { properties := [⟨"first", "civ:Name:first", none⟩, ⟨"last", "civ:Name:last", none⟩],
        required := ["first"] }
      _ _ rfl rfl rfl rfl rfl rfl rfl rfl⟩

/-!
## Claim C1 — commitment round trip

Support lemmas: exact behaviour of the codec on a single leaf commitment
`urn:{p}:{salt}:{value}` whose property name and salt are word-form and whose
value contains no pipe. -/

theorem wordChar_ne_pipe {x : Char} (h : wordChar x = true) : (x == '|') = false := by
  cases hbe : x == '|' with
  | false => rfl
  | true =>
    have hx : x = '|' := by
      have := eq_of_beq hbe
      exact this
    rw [hx] at h
    exact absurd h (by decide)

theorem takeWhile_all_append (pr : Char → Bool) :
    ∀ (l₁ : List Char), l₁.all pr = true → ∀ (c : Char), pr c = false → ∀ (l₂ : List Char),
      ((l₁ ++ c :: l₂).takeWhile pr = l₁ ∧ (l₁ ++ c :: l₂).dropWhile pr = c :: l₂)
  | [], _, c, hc, l₂ => by
    simp [List.takeWhile, List.dropWhile, hc]
  | a :: as, h, c, hc, l₂ => by
    simp only [List.all_cons, Bool.and_eq_true] at h
    have ih := takeWhile_all_append pr as h.2 c hc l₂
    simp [List.takeWhile, List.dropWhile, h.1, ih.1, ih.2]

theorem splitOnChar_no_sep (sep : Char) :
    ∀ l : List Char, (∀ x ∈ l, (x == sep) = false) → splitOnChar sep l = [l]
  | [], _ => rfl
  | c :: rest, h => by
    have hc : (c == sep) = false := h c (List.mem_cons_self c rest)
    have ih := splitOnChar_no_sep sep rest (fun x hx => h x (List.mem_cons_of_mem c hx))
    unfold splitOnChar
    rw [hc, ih]
    rfl

theorem parseSegment_leaf (p st sv : List Char)
    (hp : p.all wordChar = true) (hs : st.all wordChar = true) :
    parseSegment ('u' :: 'r' :: 'n' :: ':' :: (p ++ ':' :: (st ++ ':' :: sv))) =
      some ⟨p.asString, st.asString, sv.asString,
        ('u' :: 'r' :: 'n' :: ':' :: (p ++ ':' :: (st ++ ':' :: sv))).asString⟩ := by
  have hcolon : wordChar ':' = false := by decide
  have h1 := takeWhile_all_append wordChar p hp ':' hcolon (st ++ ':' :: sv)
  have h2 := takeWhile_all_append wordChar st hs ':' hcolon sv
  simp only [parseSegment]
  rw [h1.1, h1.2]
  simp only [List.takeWhile, List.dropWhile]
  rw [h2.1, h2.2]
  rfl

theorem asString_data (s : String) : s.data.asString = s :=
  String.asString_toList s

theorem data_urn_concat (p st sv : String) :
    ("urn:" ++ p ++ ":" ++ st ++ ":" ++ sv).data =
      'u' :: 'r' :: 'n' :: ':' :: (p.data ++ ':' :: (st.data ++ ':' :: sv.data)) := by
  simp only [String.data_append, List.append_assoc]
  rfl

theorem parseAttestableValue_leaf (p st sv : String)
    (hp : p.data.all wordChar = true) (hs : st.data.all wordChar = true)
    (hsv : ∀ x ∈ sv.data, (x == '|') = false) :
    parseAttestableValue ("urn:" ++ p ++ ":" ++ st ++ ":" ++ sv) =
      Except.ok [⟨p, st, sv, "urn:" ++ p ++ ":" ++ st ++ ":" ++ sv⟩] := by
  have hnosep : ∀ x ∈ ("urn:" ++ p ++ ":" ++ st ++ ":" ++ sv).data, (x == '|') = false := by
    intro x hx
    rw [data_urn_concat] at hx
    simp only [List.mem_cons, List.mem_append] at hx
    rcases hx with rfl | rfl | rfl | rfl | hp2 | rfl | hs2 | rfl | hv2
    · rfl
    · rfl
    · rfl
    · rfl
    · exact wordChar_ne_pipe (List.all_eq_true.mp hp x hp2)
    · rfl
    · exact wordChar_ne_pipe (List.all_eq_true.mp hs x hs2)
    · rfl
    · exact hsv x hv2
  have hsplit : splitOnPipe ("urn:" ++ p ++ ":" ++ st ++ ":" ++ sv).data =
      [("urn:" ++ p ++ ":" ++ st ++ ":" ++ sv).data] := by
    unfold splitOnPipe
    exact splitOnChar_no_sep '|' _ hnosep
  have hseg : parseSegment ("urn:" ++ p ++ ":" ++ st ++ ":" ++ sv).data =
      some ⟨p, st, sv, "urn:" ++ p ++ ":" ++ st ++ ":" ++ sv⟩ := by
    rw [data_urn_concat]
    rw [parseSegment_leaf p.data st.data sv.data hp hs]
    rw [← data_urn_concat]
    rw [asString_data, asString_data, asString_data, asString_data]
  unfold parseAttestableValue
  rw [hsplit]
  simp only [List.filterMap_cons, List.filterMap_nil, hseg]
  rfl

/-- A reconstructed or raw String leaf serializes to `urn:{p}:{salt}:{value}`
regardless of its timestamp and id fields. -/
theorem attVal_string_leaf (F : Nat) (ident ver sv st idv : String) (ts : Option Nat) :
    attVal (Nat.succ F) (UCA.mk ident ver "String" (Sum.inl (PrimVal.str sv)) (some st) ts idv) =
      "urn:" ++ propertyNameOf ident ++ ":" ++ st ++ ":" ++ sv :=
  rfl

theorem attVal_mkUCA_string_leaf (F G : Nat) (hashFn : String → String)
    (ident ver sv st : String) (ts : Option Nat) :
    attVal (Nat.succ F)
        (mkUCA hashFn G ident ver "String" (Sum.inl (PrimVal.str sv)) (some st) ts) =
      "urn:" ++ propertyNameOf ident ++ ":" ++ st ++ ":" ++ sv :=
  rfl

theorem mkUCA_id (hashFn : String → String) (F : Nat) (ident ver ty : String)
    (value : PrimVal ⊕ List (String × UCA)) (salt : Option String) (ts : Option Nat) :
    (mkUCA hashFn F ident ver ty value salt ts).id =
      ver ++ ":" ++ ident ++ ":" ++ hashFn (attVal F (UCA.mk ident ver ty value salt ts "")) :=
  rfl

/-- Registry record for the C1 counterexample (the spec's §8 age scenario). -/
def c1AgeDef : Definition :=
  { identifier := "civ:Person:age", version := "1", type := DefType.name "Number",
    minimum := some 0, maximum := some 150 }

/-- The primitive payload of a leaf instance, `none` for composites. -/
def leafValueOf (u : UCA) : Option PrimVal :=
  match u.value with
  | Sum.inl pv => some pv
  | Sum.inr _ => none

/-- Claim C1 counterexample: constructing `civ:Person:age` from the number 42
yields `A` with commitment `urn:age:abc123:00000042`; reconstructing from that
commitment (same identifier and version, same post-call registry) yields `B`
whose value is the zero-padded string `"00000042"`, not the number 42 — so
`B.value == A.value` fails for a valid raw-value construction. -/
theorem c1_number_value_not_preserved_counterexample :
    (construct (fun s => s) (fun _ => "abc123") 7 3 [c1AgeDef] [] "civ:Person:age"
        (UCAInput.prim (PrimVal.num 42)) none).toOption.map
      (fun q => (leafValueOf q.1, attVal 3 q.1)) =
      some (some (PrimVal.num 42), "urn:age:abc123:00000042") ∧
    (construct (fun s => s) (fun _ => "zzz") 9 3 [c1AgeDef] [] "civ:Person:age"
        (UCAInput.attestable "urn:age:abc123:00000042") (some "1")).toOption.map
      (fun q => leafValueOf q.1) = some (some (PrimVal.str "00000042")) ∧
    PrimVal.str "00000042" ≠ PrimVal.num 42 :=
  ⟨rfl, rfl, by decide⟩

/-- Claim C1 (amended): for a raw-value construction of a String-typed leaf
whose derived property name and drawn salt are word-form and whose value
contains no `|`, reconstructing from `canonicalAttestableValue(A)` with the
same identifier and version (against the post-call registry, with arbitrary
fresh randomness, clock and fuel) yields `B` with `B.value == A.value`,
`B.salt == A.salt`, equal commitment strings, `B.id == A.id`, and
`B.timestamp` unset while `A.timestamp` is set.  (For Number- and
Boolean-typed leaves `B.value` is the serialized string rendering of
`A.value`, not `A.value` itself — see the counterexample.) -/
theorem c1_string_leaf_roundtrip
    (hashFn : String → String) (saltFn saltFn2 : List String → String)
    (now now2 f f2 : Nat) (defs : List Definition) (path path2 : List String)
    (identifier sv : String) (version : Option String) (i : Nat) (d : Definition)
    (hmem : ((defs.map (fun dd => dd.identifier)).contains identifier) = true)
    (hidx : lookupDefIdx defs identifier version = some i)
    (hget : defs[i]? = some d)
    (hty : getTypeName (Nat.succ f) defs d = some "String")
    (hvalid : isValid (PrimVal.str sv) "String" d = true)
    (hp : (propertyNameOf identifier).data.all wordChar = true)
    (hst : (saltFn path).data.all wordChar = true)
    (hsv : ∀ x ∈ sv.data, (x == '|') = false)
    (hv2 : (thisVersionOf version d == "") = false)
    (hmem2 : (((mutateDef defs i d (DefType.name "String")).map
      (fun dd => dd.identifier)).contains identifier) = true)
    (hidx2 : (mutateDef defs i d (DefType.name "String")).findIdx?
      (fun dd => dd.identifier == identifier && dd.version == thisVersionOf version d) = some i)
    (hget2 : (mutateDef defs i d (DefType.name "String"))[i]? =
      some { d with type := DefType.name "String" })
    (hty2 : getTypeName (Nat.succ f2) (mutateDef defs i d (DefType.name "String"))
      { d with type := DefType.name "String" } = some "String") :
    ∃ A B defs2,
      construct hashFn saltFn now (Nat.succ f) defs path identifier
          (UCAInput.prim (PrimVal.str sv)) version =
        Except.ok (A, mutateDef defs i d (DefType.name "String")) ∧
      construct hashFn saltFn2 now2 (Nat.succ f2) (mutateDef defs i d (DefType.name "String"))
          path2 identifier (UCAInput.attestable (attVal (Nat.succ f) A))
          (some (thisVersionOf version d)) =
        Except.ok (B, defs2) ∧
      B.value = A.value ∧ B.salt = A.salt ∧
      attVal (Nat.succ f2) B = attVal (Nat.succ f) A ∧
      B.id = A.id ∧ B.timestamp = none ∧ A.timestamp = some now := by
  have hres : resolveType (Nat.succ f) defs d = some (DefType.name "String") := by
    unfold resolveType
    rw [hty]
    rfl
  have hres2 : resolveType (Nat.succ f2) (mutateDef defs i d (DefType.name "String"))
      { d with type := DefType.name "String" } = some (DefType.name "String") := by
    unfold resolveType
    rw [hty2]
    rfl
  have htvgen : ∀ tv : String, (tv == "") = false →
      thisVersionOf (some tv) { d with type := DefType.name "String" } = tv := by
    intro tv h
    simp [thisVersionOf, strTruthy, bne, h]
  have htv : thisVersionOf (some (thisVersionOf version d))
      { d with type := DefType.name "String" } = thisVersionOf version d :=
    htvgen _ hv2
  have hA : construct hashFn saltFn now (Nat.succ f) defs path identifier
      (UCAInput.prim (PrimVal.str sv)) version =
      Except.ok (mkUCA hashFn (Nat.succ f) identifier (thisVersionOf version d) "String"
        (Sum.inl (PrimVal.str sv)) (some (saltFn path)) (some now),
        mutateDef defs i d (DefType.name "String")) := by
    unfold construct
    rw [hmem]
    simp only [hidx, hget, hty, hres, hvalid]
    rfl
  have hcommit : attVal (Nat.succ f)
      (mkUCA hashFn (Nat.succ f) identifier (thisVersionOf version d) "String"
        (Sum.inl (PrimVal.str sv)) (some (saltFn path)) (some now)) =
      "urn:" ++ propertyNameOf identifier ++ ":" ++ saltFn path ++ ":" ++ sv :=
    attVal_mkUCA_string_leaf f (Nat.succ f) hashFn identifier (thisVersionOf version d) sv
      (saltFn path) (some now)
  have hparse : parseAttestableValue
      ("urn:" ++ propertyNameOf identifier ++ ":" ++ saltFn path ++ ":" ++ sv) =
      Except.ok [⟨propertyNameOf identifier, saltFn path, sv,
        "urn:" ++ propertyNameOf identifier ++ ":" ++ saltFn path ++ ":" ++ sv⟩] :=
    parseAttestableValue_leaf (propertyNameOf identifier) (saltFn path) sv hp hst hsv
  have hlook2 : lookupDefIdx (mutateDef defs i d (DefType.name "String")) identifier
      (some (thisVersionOf version d)) = some i := by
    simp only [lookupDefIdx]
    rw [hv2]
    simpa using hidx2
  have hav : attestableValueOf (UCAInput.attestable
      ("urn:" ++ propertyNameOf identifier ++ ":" ++ saltFn path ++ ":" ++ sv)) =
      some ("urn:" ++ propertyNameOf identifier ++ ":" ++ saltFn path ++ ":" ++ sv) := by
    have hemp : ("urn:" ++ propertyNameOf identifier ++ ":" ++ saltFn path ++ ":" ++ sv).data.isEmpty
        = false := by
      rw [data_urn_concat]
      rfl
    simp [attestableValueOf, hemp]
  have hB : construct hashFn saltFn2 now2 (Nat.succ f2)
      (mutateDef defs i d (DefType.name "String")) path2 identifier
      (UCAInput.attestable ("urn:" ++ propertyNameOf identifier ++ ":" ++ saltFn path ++ ":" ++ sv))
      (some (thisVersionOf version d)) =
      Except.ok (mkUCA hashFn (Nat.succ f2) identifier
        (thisVersionOf (some (thisVersionOf version d)) { d with type := DefType.name "String" })
        "String" (Sum.inl (PrimVal.str sv)) (some (saltFn path)) none,
        mutateDef (mutateDef defs i d (DefType.name "String")) i
          { d with type := DefType.name "String" } (DefType.name "String")) := by
    unfold construct
    rw [hmem2]
    simp only [hlook2, hget2, hty2, hres2, hav, hparse]
    rfl
  refine ⟨mkUCA hashFn (Nat.succ f) identifier (thisVersionOf version d) "String"
      (Sum.inl (PrimVal.str sv)) (some (saltFn path)) (some now),
    mkUCA hashFn (Nat.succ f2) identifier
      (thisVersionOf (some (thisVersionOf version d)) { d with type := DefType.name "String" })
      "String" (Sum.inl (PrimVal.str sv)) (some (saltFn path)) none,
    mutateDef (mutateDef defs i d (DefType.name "String")) i
      { d with type := DefType.name "String" } (DefType.name "String"),
    hA, ?_, ?_, ?_, ?_, ?_, ?_, ?_⟩
  · rw [hcommit]
    exact hB
  · rfl
  · rfl
  · rw [hcommit]
    rw [htv]
    exact attVal_mkUCA_string_leaf f2 (Nat.succ f2) hashFn identifier (thisVersionOf version d)
      sv (saltFn path) none
  · rw [mkUCA_id, mkUCA_id, htv]
    rw [attVal_string_leaf, attVal_string_leaf]
  · rfl
  · rfl

/-- Witness for the amended C1 at a concrete input: a one-record String
registry, value `"Ann"`, salt `"abc"`; all hypotheses hold by computation and
the round trip preserves value, salt, commitment and id while clearing the
timestamp. -/
theorem c1_string_leaf_roundtrip_witness :
    ∃ A B defs2,
      construct (fun s => s) (fun _ => "abc") 7 1 [firstDef] [] "civ:Name:first"
          (UCAInput.prim (PrimVal.str "Ann")) none =
        Except.ok (A, mutateDef [firstDef] 0 firstDef (DefType.name "String")) ∧
      construct (fun s => s) (fun _ => "zzz") 9 1
          (mutateDef [firstDef] 0 firstDef (DefType.name "String")) ["p"] "civ:Name:first"
          (UCAInput.attestable (attVal 1 A)) (some (thisVersionOf none firstDef)) =
        Except.ok (B, defs2) ∧
      B.value = A.value ∧ B.salt = A.salt ∧
      attVal 1 B = attVal 1 A ∧
      B.id = A.id ∧ B.timestamp = none ∧ A.timestamp = some 7 :=
  c1_string_leaf_roundtrip (fun s => s) (fun _ => "abc") (fun _ => "zzz") 7 9 0 0 [firstDef]
    [] ["p"] "civ:Name:first" "Ann" none 0 firstDef rfl rfl rfl rfl rfl rfl rfl
    (by decide) rfl rfl rfl rfl rfl

/-!
## Claim C5 — canonical ordering determinism

Order theory of the serialization comparator, and equality of the sorted
serializations of permuted field maps with distinct keys. -/

theorem char_eq_of_toNat_eq {a b : Char} (h : a.toNat = b.toNat) : a = b :=
  Char.ext (UInt32.ext h)

theorem string_eq_of_data_eq {a b : String} (h : a.data = b.data) : a = b := by
  cases a
  cases b
  exact congrArg String.mk h

theorem charsLe_total : ∀ l₁ l₂ : List Char, charsLe l₁ l₂ = true ∨ charsLe l₂ l₁ = true
  | [], _ => Or.inl rfl
  | _ :: _, [] => Or.inr rfl
  | a :: as, b :: bs => by
    rcases Nat.lt_trichotomy a.toNat b.toNat with h | h | h
    · left
      simp [charsLe, h]
    · have hab : ¬ a.toNat < b.toNat := by omega
      have hba : ¬ b.toNat < a.toNat := by omega
      rcases charsLe_total as bs with ih | ih
      · left
        simp [charsLe, hab, hba, ih]
      · right
        simp [charsLe, hab, hba, ih]
    · right
      simp [charsLe, h]

theorem charsLe_trans : ∀ l₁ l₂ l₃ : List Char,
    charsLe l₁ l₂ = true → charsLe l₂ l₃ = true → charsLe l₁ l₃ = true
  | [], _, _, _, _ => rfl
  | _ :: _, [], _, h, _ => by simp [charsLe] at h
  | _ :: _, _ :: _, [], _, h => by simp [charsLe] at h
  | a :: as, b :: bs, c :: cs, h₁, h₂ => by
    rcases Nat.lt_trichotomy a.toNat b.toNat with hab | hab | hab <;>
      rcases Nat.lt_trichotomy b.toNat c.toNat with hbc | hbc | hbc <;>
        simp only [charsLe] at h₁ h₂ ⊢ <;>
          first
            | (rw [if_pos (show a.toNat < c.toNat by omega)])
            | (rw [if_neg (show ¬ a.toNat < b.toNat by omega)] at h₁
               rw [if_pos (show b.toNat < a.toNat by omega)] at h₁
               exact absurd h₁ (by simp))
            | (rw [if_neg (show ¬ b.toNat < c.toNat by omega)] at h₂
               rw [if_pos (show c.toNat < b.toNat by omega)] at h₂
               exact absurd h₂ (by simp))
            | (rw [if_neg (show ¬ a.toNat < b.toNat by omega),
                   if_neg (show ¬ b.toNat < a.toNat by omega)] at h₁
               rw [if_neg (show ¬ b.toNat < c.toNat by omega),
                   if_neg (show ¬ c.toNat < b.toNat by omega)] at h₂
               rw [if_neg (show ¬ a.toNat < c.toNat by omega),
                   if_neg (show ¬ c.toNat < a.toNat by omega)]
               exact charsLe_trans as bs cs h₁ h₂)

theorem charsLe_antisymm : ∀ l₁ l₂ : List Char,
    charsLe l₁ l₂ = true → charsLe l₂ l₁ = true → l₁ = l₂
  | [], [], _, _ => rfl
  | [], _ :: _, _, h => by simp [charsLe] at h
  | _ :: _, [], h, _ => by simp [charsLe] at h
  | a :: as, b :: bs, h₁, h₂ => by
    rcases Nat.lt_trichotomy a.toNat b.toNat with hab | hab | hab
    · rw [charsLe, if_neg (show ¬ b.toNat < a.toNat by omega),
        if_pos (show a.toNat < b.toNat by omega)] at h₂
      exact absurd h₂ (by simp)
    · rw [charsLe, if_neg (show ¬ a.toNat < b.toNat by omega),
        if_neg (show ¬ b.toNat < a.toNat by omega)] at h₁
      rw [charsLe, if_neg (show ¬ b.toNat < a.toNat by omega),
        if_neg (show ¬ a.toNat < b.toNat by omega)] at h₂
      rw [char_eq_of_toNat_eq hab, charsLe_antisymm as bs h₁ h₂]
    · rw [charsLe, if_neg (show ¬ a.toNat < b.toNat by omega),
        if_pos (show b.toNat < a.toNat by omega)] at h₁
      exact absurd h₁ (by simp)

instance : IsTotal (String × String) keyLe :=
  ⟨fun p q => charsLe_total p.1.data q.1.data⟩

instance : IsTrans (String × String) keyLe :=
  ⟨fun _ _ _ h₁ h₂ => charsLe_trans _ _ _ h₁ h₂⟩

/-- Strict version of the key order, under which sorted lists with pairwise
distinct keys are unique. -/
def keyLtNe (p q : String × String) : Prop := keyLe p q ∧ p.1 ≠ q.1

instance : IsAntisymm (String × String) keyLtNe :=
  ⟨fun _ _ h₁ h₂ =>
    absurd (string_eq_of_data_eq (charsLe_antisymm _ _ h₁.1 h₂.1)) h₁.2⟩

theorem sorted_keyLtNe_of_nodup {l : List (String × String)}
    (hs : List.Sorted keyLe l) (hnd : (l.map Prod.fst).Nodup) :
    List.Sorted keyLtNe l := by
  have hp : List.Pairwise (fun p q : String × String => p.1 ≠ q.1) l :=
    (List.pairwise_map.mp hnd)
  exact (hs.and hp).imp (fun h => ⟨h.1, h.2⟩)

theorem insertionSort_eq_of_perm_nodup (l₁ l₂ : List (String × String))
    (h : l₁.Perm l₂) (hnd : (l₁.map Prod.fst).Nodup) :
    List.insertionSort keyLe l₁ = List.insertionSort keyLe l₂ := by
  have hperm : (List.insertionSort keyLe l₁).Perm (List.insertionSort keyLe l₂) :=
    (List.perm_insertionSort keyLe l₁).trans (h.trans (List.perm_insertionSort keyLe l₂).symm)
  have hnd₁ : ((List.insertionSort keyLe l₁).map Prod.fst).Nodup :=
    (((List.perm_insertionSort keyLe l₁)).map Prod.fst).nodup_iff.mpr hnd
  have hnd₂ : ((List.insertionSort keyLe l₂).map Prod.fst).Nodup :=
    (hperm.map Prod.fst).nodup_iff.mp hnd₁
  exact List.eq_of_perm_of_sorted hperm
    (sorted_keyLtNe_of_nodup (List.sorted_insertionSort keyLe l₁) hnd₁)
    (sorted_keyLtNe_of_nodup (List.sorted_insertionSort keyLe l₂) hnd₂)

/-- Serialization of a composite instance depends on its field map only up to
permutation, when the property keys are distinct: the sort by key cancels the
insertion order.  Version, salt, timestamp and id fields do not enter the
composite serialization. -/
theorem attVal_obj_perm (ident : String) :
    ∀ (F : Nat) (ver₁ ver₂ id₁ id₂ : String) (ts₁ ts₂ : Option Nat)
      (salt₁ salt₂ : Option String) (fields₁ fields₂ : List (String × UCA)),
      fields₁.Perm fields₂ → ((fields₁.map Prod.fst).Nodup) →
      attVal F (UCA.mk ident ver₁ "Object" (Sum.inr fields₁) salt₁ ts₁ id₁) =
        attVal F (UCA.mk ident ver₂ "Object" (Sum.inr fields₂) salt₂ ts₂ id₂)
  | 0, _, _, _, _, _, _, _, _, _, _, _, _ => rfl
  | Nat.succ f, ver₁, ver₂, id₁, id₂, ts₁, ts₂, salt₁, salt₂, fields₁, fields₂, hperm, hnd => by
    show (List.insertionSort keyLe
        (fields₁.map (fun q => (q.1, attVal f q.2)))).foldl (fun acc q => acc ++ q.2 ++ "|") "" =
      (List.insertionSort keyLe
        (fields₂.map (fun q => (q.1, attVal f q.2)))).foldl (fun acc q => acc ++ q.2 ++ "|") ""
    rw [insertionSort_eq_of_perm_nodup _ _ (hperm.map (fun q => (q.1, attVal f q.2)))
      (by rw [show (fields₁.map (fun q => (q.1, attVal f q.2))).map Prod.fst =
            fields₁.map Prod.fst from by simp]
          exact hnd)]

theorem upsert_of_any_false (acc : List (String × UCA)) (k : String) (v : UCA)
    (h : (acc.any (fun p => p.1 == k)) = false) :
    upsert acc k v = acc ++ [(k, v)] := by
  unfold upsert
  rw [h]
  rfl

/-- The Mode C loop binds exactly the supplied keys, in order, when they are
distinct from each other and from the accumulator's keys. -/
theorem constructC_keys
    (recz : List Definition → List String → String → UCAInput → Option String →
      Except ConErr (UCA × List Definition))
    (props : List ObjectProperty) (path : List String) :
    ∀ (entries : List (String × UCAInput)) (ds : List Definition)
      (acc fields : List (String × UCA)) (ds' : List Definition),
      constructC recz props path ds entries acc = Except.ok (fields, ds') →
      (acc.map Prod.fst ++ entries.map Prod.fst).Nodup →
      fields.map Prod.fst = acc.map Prod.fst ++ entries.map Prod.fst
  | [], ds, acc, fields, ds', h, _ => by
    unfold constructC at h
    cases h
    simp
  | (k, v) :: rest, ds, acc, fields, ds', h, hnd => by
    unfold constructC at h
    split at h
    · cases h
    · split at h
      · cases h
      · rename_i child ds2 heq
        have hkacc : k ∉ acc.map Prod.fst := by
          intro hk
          have hdis := List.disjoint_of_nodup_append hnd
          exact hdis hk (by simp)
        have hany : (acc.any (fun p => p.1 == k)) = false := by
          rw [List.any_eq_false]
          intro p hp
          simp only [beq_iff_eq]
          intro he
          exact hkacc (he ▸ List.mem_map_of_mem Prod.fst hp)
        rw [upsert_of_any_false acc k child hany] at h
        have ih := constructC_keys recz props path rest ds2 (acc ++ [(k, child)]) fields ds' h
          (by simpa [List.append_assoc] using hnd)
        simpa [List.append_assoc] using ih

theorem getTypeName_object_of_resolveType (F : Nat) (defs : List Definition) (d : Definition)
    (o : ObjectSchema) (h : resolveType (Nat.succ F) defs d = some (DefType.object o)) :
    getTypeName (Nat.succ F) defs d = some "Object" := by
  unfold resolveType at h
  split at h
  · cases h
  · rename_i tn hty
    split at h
    · simp at h
    · rename_i htn
      rw [hty]
      have htn' : tn = "Object" := by
        simpa [bne] using htn
      rw [htn']

/-- Inversion of a successful nested-object (Mode C) construction: the
dispatch necessarily resolved the definition to an object schema, ran the
child loop, and packaged the children as an unsalted, untimestamped composite
of type name Object. -/
theorem construct_mapping_ok_inv
    (hashFn : String → String) (saltFn : List String → String) (now f : Nat)
    (defs : List Definition) (path : List String) (identifier : String)
    (m : List (String × UCAInput)) (version : Option String) (u : UCA)
    (defs' : List Definition)
    (h : construct hashFn saltFn now (Nat.succ f) defs path identifier
      (UCAInput.mapping m) version = Except.ok (u, defs')) :
    ∃ i d o fields,
      lookupDefIdx defs identifier version = some i ∧
      defs[i]? = some d ∧
      resolveType (Nat.succ f) defs d = some (DefType.object o) ∧
      constructC (fun ds pth idf vl vr => construct hashFn saltFn now f ds pth idf vl vr)
        o.properties path (mutateDef defs i d (DefType.object o)) m [] =
        Except.ok (fields, defs') ∧
      u = mkUCA hashFn (Nat.succ f) identifier (thisVersionOf version d) "Object"
        (Sum.inr fields) none none := by
  unfold construct at h
  split at h
  · cases h
  split at h
  · cases h
  rename_i i hlook
  split at h
  · cases h
  rename_i d hget
  split at h
  · cases h
  rename_i tyName hty
  split at h
  · cases h
  rename_i resolved hres
  split at h
  · rename_i s hs
    simp [attestableValueOf] at hs
  split at h
  · rename_i hiv
    rw [isValueOfType_mapping] at hiv
    cases hiv
  split at h
  · cases h
  rename_i hpe
  split at h
  · cases h
  rename_i o
  split at h
  · cases h
  split at h
  · cases h
  rename_i fields defs2 hC
  cases h
  have htyn : tyName = "Object" := by
    have hgo := getTypeName_object_of_resolveType f defs d o hres
    rw [hty] at hgo
    exact Option.some.inj hgo
  subst htyn
  exact ⟨i, d, o, fields, hlook, hget, hres, hC, rfl⟩

/-- Serialization of a composite built by `mkUCA`, up to permutation of the
field map — unification form of `attVal_obj_perm`. -/
theorem attVal_mkUCA_obj_perm (ident : String) (F G₁ G₂ : Nat) (hashFn : String → String)
    (ver₁ ver₂ : String) (ts₁ ts₂ : Option Nat) (salt₁ salt₂ : Option String)
    (fields₁ fields₂ : List (String × UCA))
    (hperm : fields₁.Perm fields₂) (hnd : (fields₁.map Prod.fst).Nodup) :
    attVal F (mkUCA hashFn G₁ ident ver₁ "Object" (Sum.inr fields₁) salt₁ ts₁) =
      attVal F (mkUCA hashFn G₂ ident ver₂ "Object" (Sum.inr fields₂) salt₂ ts₂) :=
  attVal_obj_perm ident F ver₁ ver₂ _ _ ts₁ ts₂ salt₁ salt₂ fields₁ fields₂ hperm hnd

/-- Claim C5: `canonicalAttestableValue` of a composite is invariant to the
insertion order of the input mapping's keys: two successful constructions of
the same definition from key-permuted mappings with distinct keys — whose
children agree per key ("equal child salts"), expressed as the resulting
field maps being permutations — have identical commitment strings (children
serialized sorted by property name ascending, each with a trailing `|`) and
identical content ids. -/
theorem c5_canonical_order_invariance
    (hashFn : String → String) (saltFn : List String → String) (now f : Nat)
    (defs : List Definition) (path : List String) (identifier : String)
    (version : Option String) (m₁ m₂ : List (String × UCAInput))
    (u₁ u₂ : UCA) (defs₁ defs₂ : List Definition)
    (_hperm : m₁.Perm m₂)
    (hnd : (m₁.map Prod.fst).Nodup)
    (h₁ : construct hashFn saltFn now f defs path identifier (UCAInput.mapping m₁) version =
      Except.ok (u₁, defs₁))
    (h₂ : construct hashFn saltFn now f defs path identifier (UCAInput.mapping m₂) version =
      Except.ok (u₂, defs₂))
    (hchild : ∀ fs₁ fs₂, u₁.value = Sum.inr fs₁ → u₂.value = Sum.inr fs₂ → fs₁.Perm fs₂) :
    (∀ F, attVal F u₁ = attVal F u₂) ∧ u₁.id = u₂.id := by
  cases f with
  | zero => cases h₁
  | succ f =>
    obtain ⟨i₁, d₁, o₁, fields₁, hl₁, hg₁, hr₁, hC₁, hu₁⟩ :=
      construct_mapping_ok_inv hashFn saltFn now f defs path identifier m₁ version u₁ defs₁ h₁
    obtain ⟨i₂, d₂, o₂, fields₂, hl₂, hg₂, hr₂, hC₂, hu₂⟩ :=
      construct_mapping_ok_inv hashFn saltFn now f defs path identifier m₂ version u₂ defs₂ h₂
    have hi : i₁ = i₂ := Option.some.inj (hl₁.symm.trans hl₂)
    subst hi
    have hd : d₁ = d₂ := Option.some.inj (hg₁.symm.trans hg₂)
    subst hd
    have ho : o₁ = o₂ := by
      have h' := hr₁.symm.trans hr₂
      simpa using h'
    subst ho
    have hk₁ : fields₁.map Prod.fst = m₁.map Prod.fst := by
      have := constructC_keys
        (fun ds pth idf vl vr => construct hashFn saltFn now f ds pth idf vl vr)
        o₁.properties path m₁ (mutateDef defs i₁ d₁ (DefType.object o₁)) [] fields₁ defs₁ hC₁
        (by simpa using hnd)
      simpa using this
    have hndf : (fields₁.map Prod.fst).Nodup := by
      rw [hk₁]
      exact hnd
    have hpf : fields₁.Perm fields₂ :=
      hchild fields₁ fields₂ (by rw [hu₁]; rfl) (by rw [hu₂]; rfl)
    subst hu₁
    subst hu₂
    constructor
    · intro F
      exact attVal_mkUCA_obj_perm identifier F (Nat.succ f) (Nat.succ f) hashFn _ _ _ _ _ _
        fields₁ fields₂ hpf hndf
    · rw [mkUCA_id, mkUCA_id]
      exact congrArg
        (fun x => thisVersionOf version d₁ ++ ":" ++ identifier ++ ":" ++ hashFn x)
        (attVal_obj_perm identifier (Nat.succ f) _ _ _ _ _ _ _ _ fields₁ fields₂ hpf hndf)

/-- Child instance of the C5 witness for the `first` property. -/
def c5Child1 : UCA :=
  mkUCA (fun s => s) 2 "civ:Name:first" "1" "String" (Sum.inl (PrimVal.str "Ann"))
    (some "first") (some 0)

/-- Child instance of the C5 witness for the `last` property. -/
def c5Child2 : UCA :=
  mkUCA (fun s => s) 2 "civ:Name:last" "1" "String" (Sum.inl (PrimVal.str "Lee"))
    (some "last") (some 0)

/-- Composite built from the mapping in `first, last` insertion order. -/
def c5A : UCA :=
  mkUCA (fun s => s) 3 "civ:Identity:name" "1" "Object"
    (Sum.inr [("first", c5Child1), ("last", c5Child2)]) none none

/-- Composite built from the key-permuted mapping, `last, first` order. -/
def c5B : UCA :=
  mkUCA (fun s => s) 3 "civ:Identity:name" "1" "Object"
    (Sum.inr [("last", c5Child2), ("first", c5Child1)]) none none

/-- Witness for C5 at a concrete input: the two key-permuted constructions of
`civ:Identity:name` (with the per-path salt oracle giving each property the
same salt in both runs) produce instances with identical commitment strings
at every fuel and identical ids. -/
theorem c5_canonical_order_invariance_witness :
    construct (fun s => s) (fun p => p.getLastD "seed") 0 3 regName [] "civ:Identity:name"
        (UCAInput.mapping [("first", UCAInput.prim (PrimVal.str "Ann")),
          ("last", UCAInput.prim (PrimVal.str "Lee"))]) none = Except.ok (c5A, regName) ∧
    construct (fun s => s) (fun p => p.getLastD "seed") 0 3 regName [] "civ:Identity:name"
        (UCAInput.mapping [("last", UCAInput.prim (PrimVal.str "Lee")),
          ("first", UCAInput.prim (PrimVal.str "Ann"))]) none = Except.ok (c5B, regName) ∧
    (∀ F, attVal F c5A = attVal F c5B) ∧ c5A.id = c5B.id := by
  have hch : ∀ fs₁ fs₂ : List (String × UCA),
      c5A.value = Sum.inr fs₁ → c5B.value = Sum.inr fs₂ → fs₁.Perm fs₂ := by
    intro fs₁ fs₂ e₁ e₂
    have e₁' : Sum.inr (α := PrimVal) [("first", c5Child1), ("last", c5Child2)] =
        Sum.inr fs₁ := e₁
    have e₂' : Sum.inr (α := PrimVal) [("last", c5Child2), ("first", c5Child1)] =
        Sum.inr fs₂ := e₂
    injection e₁' with e₁''
    injection e₂' with e₂''
    rw [← e₁'', ← e₂'']
    exact List.Perm.swap _ _ _
  have h := c5_canonical_order_invariance (fun s => s) (fun p => p.getLastD "seed") 0 3
    regName [] "civ:Identity:name" none
    [("first", UCAInput.prim (PrimVal.str "Ann")), ("last", UCAInput.prim (PrimVal.str "Lee"))]
    [("last", UCAInput.prim (PrimVal.str "Lee")), ("first", UCAInput.prim (PrimVal.str "Ann"))]
    c5A c5B regName regName (List.Perm.swap _ _ _) (by decide) rfl rfl hch
  exact ⟨rfl, rfl, h.1, h.2⟩

end CredCommons
